import Mathlib

/-!
# Verification of the streaming JSON aggregator (`src/structurer/main.py`)

This file embeds the two components of the repository in Lean 4 and proves
the specified properties about them.

* `ProgressFileWrapper` — the metered reader: wraps a text file object and,
  on every `read` / `readline` / iteration step, adds the UTF-8 byte length
  of the returned data (`len(data.encode('utf-8'))` in the source) to the
  progress counter.
* `process_file` — the aggregating stream processor: folds the sequence of
  item records yielded by the incremental JSON parser into two mappings
  (category → count, category → running price sum), skipping records with
  falsy or duplicate identifiers, and catching any mid-stream exception
  (returning the partial mappings accumulated so far).

Modelling conventions:
* JSON scalar values are `JVal`.  The Python numeric tower is tracked:
  `ijson` (default options, no `use_float`) yields a Python `int` for an
  integer JSON number (`JVal.int`) and a `decimal.Decimal` for a JSON
  number with a fractional part or exponent (`JVal.dec`); Python floats
  (`JVal.float`) enter only through the source's own defaults (`0.0`).
  Numeric values are carried as rationals (float rounding is not
  modelled; the sums the program actually forms are float + int / bool /
  float, exact at these magnitudes).
* Crucially, `float + Decimal` raises `TypeError` in Python (the
  `decimal` module refuses to mix with floats), and the running sum
  `category_sales.get(category, 0.0) + price` is always a float, so a
  `Decimal` (or `None`, or string) price raises; `toNum` returns `none`
  exactly for those operands.
* Python dicts are association lists with first-match lookup and
  replace-or-append assignment (`dictGet` / `dictSet`), preserving
  insertion order as CPython does.
* The Python `set` of seen identifiers is a duplicate-free list with
  membership-guarded append.
* Python truthiness of a scalar is `truthy`; `item.get(k)` returning `None`
  for an absent key is `(dictGet item k).getD JVal.null`.
* An exception inside the loop body is modelled by the `Bool` component of
  `processItem`: adding a `Decimal`, `None` or string `price` to the float
  running sum raises `TypeError` in Python, *after* the count update and
  *before* the sales update, so `processItem` returns the half-updated
  state with flag `false` and the stream stops there (the `except` clause
  only prints).
* The file is opened with `open(file_path, 'r', encoding='utf-8')`, i.e.
  in universal-newlines mode: the decoded character stream the reader
  serves is `nlTranslate disk` where `disk` is the on-disk text (`'\r\n'`
  and lone `'\r'` both decode to `'\n'`), while `os.path.getsize` reports
  `utf8Len disk`, the byte length of the on-disk text.
* A parser/IO failure while pulling the next record is the `parseErr`
  argument of `process_file`: the records successfully yielded before the
  failure are the `items` list, and the `except Exception` clause catches
  the failure, so the flag does not change the returned mappings.
* A failure of `os.path.getsize` is `sizeResult = none`.
-/

/-- A Python scalar value as it can appear in the fields of an item record
(`id`, `category`, `price`).  `ijson` with default options yields `int`
for an integer JSON number and `decimal.Decimal` (`dec`) for a JSON
number with a fractional part or exponent; a Python `float` only arises
from the source's own defaults. -/
inductive JVal : Type where
  | null : JVal
  | bool (b : Bool) : JVal
  | int (n : Int) : JVal
  | float (q : Rat) : JVal
  | dec (q : Rat) : JVal
  | str (s : String) : JVal
deriving DecidableEq, Repr

/-- Python truthiness of a scalar: `None`, `False`, numeric zero and the
empty string are falsy (`if not item_id` in the source). -/
def truthy : JVal → Bool
  | JVal.null => false
  | JVal.bool b => b
  | JVal.int n => decide (n ≠ 0)
  | JVal.float q => decide (q ≠ 0)
  | JVal.dec q => decide (q ≠ 0)
  | JVal.str s => decide (s ≠ "")

/-- The outcome of Python `x + v` where `x` is the float running sum:
`int`, `float` and `bool` operands coerce and add; a `decimal.Decimal`
(the `decimal` module refuses to mix with floats), `None` or a string
raises `TypeError` (`none` here). -/
def toNum : JVal → Option Rat
  | JVal.int n => some n
  | JVal.float q => some q
  | JVal.bool b => some (if b then 1 else 0)
  | _ => none

/-- First-match lookup in an association list: Python `dict.get` returning
`none` when the key is absent. -/
def dictGet {κ β : Type} [DecidableEq κ] : List (κ × β) → κ → Option β
  | [], _ => none
  | (k', v) :: rest, k => if k' = k then some v else dictGet rest k

/-- Replace-or-append assignment: Python `d[k] = v`, keeping insertion
order (an existing key keeps its position, a new key goes to the end). -/
def dictSet {κ β : Type} [DecidableEq κ] : List (κ × β) → κ → β → List (κ × β)
  | [], k, v => [(k, v)]
  | (k', v') :: rest, k, v =>
      if k' = k then (k, v) :: rest else (k', v') :: dictSet rest k v

/-- The key list of an association list (Python `d.keys()`). -/
def dictKeys {κ β : Type} (d : List (κ × β)) : List κ :=
  d.map Prod.fst

/-- One item record: the loosely structured mapping yielded for one element
of the top-level JSON array.  Fields are optional and untyped. -/
def Item : Type := List (String × JVal)

/-- The default category sentinel of the source (`'Неизвестно'`, the
string the specification calls the "Unknown" sentinel). -/
def unknownCategory : JVal := JVal.str "Неизвестно"

/-- The mutable state of one run of the processing loop: the two result
dicts and the seen-identifier set (`category_counts`, `category_sales`,
`unique_ids` in the source). -/
structure AggState : Type where
  counts : List (JVal × Nat)
  sales : List (JVal × Rat)
  seen : List JVal
deriving DecidableEq, Repr

/-- The state at the top of `process_file`: two empty dicts, empty set. -/
def initState : AggState := ⟨[], [], []⟩

/-- The body of the `for item in objects` loop, for one record.

Returns the state after the record together with `true`, or — when the
present `price` value is a `Decimal`, `None` or a string, so that
`category_sales.get(category, 0.0) + price` raises `TypeError` — the
half-updated state (identifier added, count updated, sales untouched)
together with `false`.  The absent-price default is the Python float
`0.0`. -/
def processItem (s : AggState) (item : Item) : AggState × Bool :=
  let item_id := (dictGet item "id").getD JVal.null
  if truthy item_id = false then (s, true)
  else if item_id ∈ s.seen then (s, true)
  else
    let seen' := s.seen ++ [item_id]
    let category := (dictGet item "category").getD unknownCategory
    let price := (dictGet item "price").getD (JVal.float 0)
    let counts' := dictSet s.counts category ((dictGet s.counts category).getD 0 + 1)
    match toNum price with
    | none => ({ counts := counts', sales := s.sales, seen := seen' }, false)
    | some p =>
        ({ counts := counts',
           sales := dictSet s.sales category ((dictGet s.sales category).getD 0 + p),
           seen := seen' }, true)

/-- The loop over the records yielded by `ijson.items`: processes records
in order and stops at the first one whose body raises (the exception is
caught outside the loop, so the state reached so far is kept). -/
def processStream (s : AggState) : List Item → AggState × Bool
  | [] => (s, true)
  | it :: rest =>
      match processItem s it with
      | (s', true) => processStream s' rest
      | (s', false) => (s', false)

/-- `process_file`, embedded over its three sources of input:
`sizeResult` is the outcome of `os.path.getsize` (`none` = `OSError`),
`items` is the finite sequence of records the incremental parser yields
before exhaustion or failure, and `parseErr` records whether the parser
raised after yielding them (caught by the `except` clause, which only
prints).  Returns `(category_counts, category_sales)`. -/
def process_file (sizeResult : Option Nat) (items : List Item) (parseErr : Bool) :
    List (JVal × Nat) × List (JVal × Rat) :=
  match sizeResult with
  | none => ([], [])
  | some _ =>
      let s := (processStream initState items).1
      let _ := parseErr
      (s.counts, s.sales)

/-! ## The metered reader -/

/-- UTF-8 byte length of text data: `len(data.encode('utf-8'))`. -/
def utf8Len (l : List Char) : Nat :=
  (l.map Char.utf8Size).sum

/-- A text file object open for reading: immutable character content and
the current read position. -/
structure TextFile : Type where
  content : List Char
  pos : Nat
deriving DecidableEq, Repr

/-- The characters from the read position to the end of file. -/
def TextFile.rest (f : TextFile) : List Char :=
  f.content.drop f.pos

/-- `file.read(size)`: all remaining characters when `size` is negative,
otherwise up to `size` characters; advances the position. -/
def TextFile.read (f : TextFile) (size : Int) : List Char × TextFile :=
  let data := if size < 0 then f.rest else f.rest.take size.toNat
  (data, { f with pos := f.pos + data.length })

/-- The longest prefix up to and including the first newline. -/
def takeLine : List Char → List Char
  | [] => []
  | c :: cs => if c = '\n' then [c] else c :: takeLine cs

/-- `file.readline(size)`: one line (newline included), truncated to at
most `size` characters when `size` is non-negative. -/
def TextFile.readline (f : TextFile) (size : Int) : List Char × TextFile :=
  let line := takeLine f.rest
  let data := if size < 0 then line else line.take size.toNat
  (data, { f with pos := f.pos + data.length })

/-- `next(file)`: the next line, or `none` at end of file
(`StopIteration`). -/
def TextFile.next (f : TextFile) : Option (List Char × TextFile) :=
  match f.rest with
  | [] => none
  | _ :: _ =>
      let data := takeLine f.rest
      some (data, { f with pos := f.pos + data.length })

/-- The metered reader: the wrapped file object and the running byte
counter of the progress bar (the sum of all deltas passed to
`progress_bar.update`). -/
structure ProgressFileWrapper : Type where
  file_obj : TextFile
  progress_bar : Nat
deriving DecidableEq, Repr

/-- `ProgressFileWrapper.read`: reads from the underlying source, adds the
UTF-8 byte length of the returned data to the progress counter, and
returns the data unchanged. -/
def ProgressFileWrapper.read (w : ProgressFileWrapper) (size : Int) :
    List Char × ProgressFileWrapper :=
  let r := w.file_obj.read size
  (r.1, { file_obj := r.2, progress_bar := w.progress_bar + utf8Len r.1 })

/-- `ProgressFileWrapper.readline`: same contract, line oriented. -/
def ProgressFileWrapper.readline (w : ProgressFileWrapper) (size : Int) :
    List Char × ProgressFileWrapper :=
  let r := w.file_obj.readline size
  (r.1, { file_obj := r.2, progress_bar := w.progress_bar + utf8Len r.1 })

/-- `ProgressFileWrapper.__next__` (also one step of `__iter__`): pulls the
next line; `StopIteration` propagates before any counter update. -/
def ProgressFileWrapper.next (w : ProgressFileWrapper) :
    Option (List Char) × ProgressFileWrapper :=
  match w.file_obj.next with
  | none => (none, w)
  | some (data, f') =>
      (some data, { file_obj := f', progress_bar := w.progress_bar + utf8Len data })

/-- One read operation the incremental parser may perform on the metered
reader. -/
inductive ReadOp : Type where
  | read (size : Int) : ReadOp
  | readline (size : Int) : ReadOp
  | nextLine : ReadOp
deriving DecidableEq, Repr

/-- Apply one read operation to the metered reader, keeping the state. -/
def stepOp (w : ProgressFileWrapper) : ReadOp → ProgressFileWrapper
  | ReadOp.read size => (w.read size).2
  | ReadOp.readline size => (w.readline size).2
  | ReadOp.nextLine => w.next.2

/-- Run a sequence of read operations. -/
def runOps (w : ProgressFileWrapper) (ops : List ReadOp) : ProgressFileWrapper :=
  ops.foldl stepOp w

/-- The metered reader freshly wrapped around a just-opened file, next to a
just-initialised progress bar. -/
def initWrapper (content : List Char) : ProgressFileWrapper :=
  { file_obj := { content := content, pos := 0 }, progress_bar := 0 }

/-! ## Spec-side definitions and concrete records -/

/-- A record whose `price` field is absent or a value Python can add to
the float running sum (`int`, `float` or `bool` — not the
`decimal.Decimal` that `ijson` yields for fractional JSON numbers, and
not `None` or a string). -/
def priceOk (r : Item) : Bool :=
  (toNum ((dictGet r "price").getD (JVal.float 0))).isSome

/-- Modelled from the spec: the per-record folding rule of §4.2 — skip a
falsy or already-seen identifier, otherwise record the identifier, default
`category` and `price`, and bump the category's count and sum.  Used to
state that the code's loop computes exactly this fold over the records the
parser yielded. -/
def specStep (s : AggState) (r : Item) : AggState :=
  let i := (dictGet r "id").getD JVal.null
  if truthy i = false then s
  else if i ∈ s.seen then s
  else
    let c := (dictGet r "category").getD unknownCategory
    let p := (toNum ((dictGet r "price").getD (JVal.float 0))).getD 0
    { counts := dictSet s.counts c ((dictGet s.counts c).getD 0 + 1),
      sales := dictSet s.sales c ((dictGet s.sales c).getD 0 + p),
      seen := s.seen ++ [i] }

/-- `{"id": "a", "category": "X", "price": 10}` — an integer price, which
`ijson` yields as a Python `int`. -/
def itemA : Item := [("id", JVal.str "a"), ("category", JVal.str "X"), ("price", JVal.int 10)]

/-- `{"id": "b", "category": "X", "price": 5}` -/
def itemB : Item := [("id", JVal.str "b"), ("category", JVal.str "X"), ("price", JVal.int 5)]

/-- `{"id": "a", "category": "X", "price": 999}` — duplicate of `itemA`. -/
def itemDupA : Item := [("id", JVal.str "a"), ("category", JVal.str "X"), ("price", JVal.int 999)]

/-- `{"category": "Y", "price": 2}` — no identifier. -/
def itemNoId : Item := [("category", JVal.str "Y"), ("price", JVal.int 2)]

/-- `{"id": "a", "price": "x"}` — a present string price. -/
def itemBadPrice : Item := [("id", JVal.str "a"), ("price", JVal.str "x")]

/-- `{"id": "c", "category": null, "price": 3}` — an explicit null
category with an integer price. -/
def itemNullCat : Item := [("id", JVal.str "c"), ("category", JVal.null), ("price", JVal.int 3)]

/-- `{"id": "d"}` — no category and no price. -/
def itemBare : Item := [("id", JVal.str "d")]

/-- `{"id": "e", "price": 5.5}` — no category and a fractional price,
which `ijson` yields as `decimal.Decimal('5.5')`. -/
def itemDecNoCat : Item := [("id", JVal.str "e"), ("price", JVal.dec (11 / 2))]

/-- `{"id": "f", "category": null, "price": 5.5}` — an explicit null
category and a `Decimal` price. -/
def itemNullCatDec : Item :=
  [("id", JVal.str "f"), ("category", JVal.null), ("price", JVal.dec (11 / 2))]

/-- Universal-newlines decoding performed by `open(..., 'r')` with the
default `newline=None`: on-disk `'\r\n'` and lone `'\r'` are both
returned as `'\n'`. -/
def nlTranslate : List Char → List Char
  | [] => []
  | [c] => if c = '\r' then ['\n'] else [c]
  | c :: d :: rest =>
      if c = '\r' then
        if d = '\n' then '\n' :: nlTranslate rest
        else '\n' :: nlTranslate (d :: rest)
      else c :: nlTranslate (d :: rest)

/-- Whether the on-disk text contains a `'\r\n'` pair — the one case in
which universal-newlines decoding shortens the byte length. -/
def hasCRLF : List Char → Bool
  | [] => false
  | [_] => false
  | c :: d :: rest => (c = '\r' && d = '\n') || hasCRLF (d :: rest)

/-- An on-disk text with one CRLF line ending (`"a\r\nb"`, 4 bytes). -/
def diskCRLF : List Char := ['a', '\r', '\n', 'b']

/-- The run invariant of the metered reader: the wrapped file's content is
fixed, the position stays within the file, and the progress counter equals
the UTF-8 byte length of the characters consumed so far. -/
def wrapperInv (content : List Char) (w : ProgressFileWrapper) : Prop :=
  w.file_obj.content = content ∧ w.file_obj.pos ≤ content.length ∧
    w.progress_bar = utf8Len (content.take w.file_obj.pos)

/-! ## Helper lemmas -/

theorem dictKeys_dictSet {β : Type} (d : List (JVal × β)) (k : JVal) (v : β) :
    dictKeys (dictSet d k v) =
      if k ∈ dictKeys d then dictKeys d else dictKeys d ++ [k] := by
  induction d with
  | nil => simp [dictSet, dictKeys]
  | cons hd tl ih =>
      obtain ⟨k', v'⟩ := hd
      by_cases h : k' = k
      · subst h
        simp [dictSet, dictKeys]
      · simp only [dictSet, dictKeys, if_neg h, List.map_cons, List.mem_cons]
        have hk : ¬ k = k' := fun hk => h hk.symm
        simp only [hk, false_or]
        by_cases hmem : k ∈ dictKeys tl
        · simp [dictKeys] at hmem
          simp [hmem, dictKeys] at ih ⊢
          simp [ih]
        · simp [dictKeys] at hmem
          simp [hmem, dictKeys] at ih ⊢
          simp [ih]

theorem dictGet_dictSet_ne {β : Type} (d : List (JVal × β)) (k k' : JVal) (v : β)
    (h : k' ≠ k) : dictGet (dictSet d k v) k' = dictGet d k' := by
  induction d with
  | nil => simp [dictSet, dictGet, Ne.symm h]
  | cons hd tl ih =>
      obtain ⟨k₀, v₀⟩ := hd
      by_cases hk : k₀ = k
      · subst hk
        simp [dictSet, dictGet, Ne.symm h]
      · simp [dictSet, dictGet, hk, ih]

theorem processStream_append (s : AggState) (xs ys : List Item) :
    processStream s (xs ++ ys) =
      if (processStream s xs).2 = true then processStream (processStream s xs).1 ys
      else processStream s xs := by
  induction xs generalizing s with
  | nil => simp [processStream]
  | cons x xs ih =>
      rcases h : processItem s x with ⟨s', b⟩
      cases b <;> simp [processStream, h, ih]

theorem seen_mem_processItem (s : AggState) (it : Item) (x : JVal) (hx : x ∈ s.seen) :
    x ∈ (processItem s it).1.seen := by
  simp only [processItem]
  split
  · exact hx
  · split
    · exact hx
    · split <;> simp [List.mem_append, hx]

theorem seen_mem_processStream (s : AggState) (xs : List Item) (x : JVal)
    (hx : x ∈ s.seen) : x ∈ (processStream s xs).1.seen := by
  induction xs generalizing s with
  | nil => exact hx
  | cons y ys ih =>
      rcases h : processItem s y with ⟨s', b⟩
      have hx' : x ∈ s'.seen := by
        have := seen_mem_processItem s y x hx
        rw [h] at this
        exact this
      cases b <;> simp [processStream, h]
      · exact hx'
      · exact ih s' hx'

theorem id_mem_seen_processItem (s : AggState) (r : Item) (i : JVal)
    (h : dictGet r "id" = some i) (ht : truthy i = true) :
    i ∈ (processItem s r).1.seen := by
  simp only [processItem, h, Option.getD_some, ht, Bool.true_eq_false, if_false]
  split
  · assumption
  · split <;> simp [List.mem_append]

theorem dup_skip (s : AggState) (r : Item) (i : JVal)
    (h : dictGet r "id" = some i) (hmem : i ∈ s.seen) :
    processItem s r = (s, true) := by
  simp [processItem, h, hmem]

theorem processItem_eq_specStep (s : AggState) (r : Item) (h : priceOk r = true) :
    processItem s r = (specStep s r, true) := by
  simp only [processItem, specStep]
  split
  · rfl
  · split
    · rfl
    · rcases hn : toNum ((dictGet r "price").getD (JVal.float 0)) with _ | p
      · exfalso
        unfold priceOk at h
        rw [hn] at h
        simp at h
      · simp [hn]

theorem keysEq_processItem (s : AggState) (r : Item) (h : priceOk r = true)
    (hk : dictKeys s.counts = dictKeys s.sales) :
    dictKeys (processItem s r).1.counts = dictKeys (processItem s r).1.sales := by
  rw [processItem_eq_specStep s r h]
  simp only [specStep]
  split
  · exact hk
  · split
    · exact hk
    · simp only
      rw [dictKeys_dictSet, dictKeys_dictSet, hk]

theorem keysEq_processStream (xs : List Item) (hp : ∀ r ∈ xs, priceOk r = true)
    (s : AggState) (hk : dictKeys s.counts = dictKeys s.sales) :
    dictKeys (processStream s xs).1.counts = dictKeys (processStream s xs).1.sales := by
  induction xs generalizing s with
  | nil => exact hk
  | cons x xs ih =>
      have hx : priceOk x = true := hp x (List.mem_cons_self x xs)
      have hxs : ∀ r ∈ xs, priceOk r = true := fun r hr => hp r (List.mem_cons_of_mem x hr)
      have hk' := keysEq_processItem s x hx hk
      rcases hr : processItem s x with ⟨s', b⟩
      rw [hr] at hk'
      cases b <;> simp only [processStream, hr]
      · exact hk'
      · exact ih hxs s' hk'

theorem utf8Len_append (l₁ l₂ : List Char) :
    utf8Len (l₁ ++ l₂) = utf8Len l₁ + utf8Len l₂ := by
  simp [utf8Len]

theorem take_length_take (l : List Char) (n : Nat) :
    l.take n = l.take (l.take n).length := by
  rw [List.length_take]
  by_cases h : n ≤ l.length
  · rw [Nat.min_eq_left h]
  · rw [Nat.min_eq_right (Nat.le_of_not_le h), List.take_length,
      List.take_of_length_le (Nat.le_of_not_le h)]

theorem takeLine_eq_take (l : List Char) :
    takeLine l = l.take (takeLine l).length := by
  induction l with
  | nil => rfl
  | cons c cs ih =>
      by_cases h : c = '\n'
      · simp [takeLine, h]
      · simp only [takeLine, if_neg h, List.length_cons, List.take_succ_cons]
        exact congrArg (c :: ·) ih

theorem utf8Len_take_add (content : List Char) (pos k : Nat) (data : List Char)
    (hdata : data = (content.drop pos).take k) :
    utf8Len (content.take (pos + data.length)) =
      utf8Len (content.take pos) + utf8Len data := by
  have hlen : data = (content.drop pos).take data.length := by
    rw [hdata]
    exact take_length_take _ k
  rw [List.take_add, utf8Len_append, ← hlen]

theorem pos_take_add (content : List Char) (pos k : Nat) (data : List Char)
    (hdata : data = (content.drop pos).take k) (hpos : pos ≤ content.length) :
    pos + data.length ≤ content.length := by
  have h₁ : data.length ≤ (content.drop pos).length := by
    rw [hdata, List.length_take]
    exact Nat.min_le_right _ _
  have h₂ : (content.drop pos).length = content.length - pos := List.length_drop _ _
  omega

theorem utf8Len_eq_utf8ByteSize (l : List Char) : utf8Len l = String.utf8ByteSize ⟨l⟩ := by
  induction l with
  | nil => rfl
  | cons c cs ih =>
      have h₁ : utf8Len (c :: cs) = c.utf8Size + utf8Len cs := by
        simp [utf8Len]
      have h₂ : String.utf8ByteSize ⟨c :: cs⟩ = String.utf8ByteSize ⟨cs⟩ + c.utf8Size := rfl
      rw [h₁, h₂, ih, Nat.add_comm]

theorem utf8Len_cons (c : Char) (l : List Char) :
    utf8Len (c :: l) = c.utf8Size + utf8Len l := by
  simp [utf8Len]

theorem utf8Len_nlTranslate (l : List Char) (h : hasCRLF l = false) :
    utf8Len (nlTranslate l) = utf8Len l := by
  induction l using nlTranslate.induct with
  | case1 => rfl
  | case2 => decide
  | case3 c hc => simp [nlTranslate, hc]
  | case4 rest ih =>
      simp [hasCRLF] at h
  | case5 d rest hd ih =>
      have hrest : hasCRLF (d :: rest) = false := by
        simp only [hasCRLF, Bool.or_eq_false_iff] at h
        exact h.2
      have hcc : ('\n').utf8Size = ('\r').utf8Size := by decide
      simp [nlTranslate, hd, utf8Len_cons, ih hrest, hcc]
  | case6 c d rest hc ih =>
      have hrest : hasCRLF (d :: rest) = false := by
        simp only [hasCRLF, Bool.or_eq_false_iff] at h
        exact h.2
      simp [nlTranslate, hc, utf8Len_cons, ih hrest]

theorem stepOp_inv (content : List Char) (w : ProgressFileWrapper) (op : ReadOp)
    (h : wrapperInv content w) : wrapperInv content (stepOp w op) := by
  obtain ⟨hc, hpos, hpb⟩ := h
  have key : ∀ (data : List Char) (k : Nat), data = (content.drop w.file_obj.pos).take k →
      wrapperInv content ⟨⟨content, w.file_obj.pos + data.length⟩,
        w.progress_bar + utf8Len data⟩ := by
    intro data k hdata
    exact ⟨rfl, pos_take_add content w.file_obj.pos k data hdata hpos,
      by rw [hpb, utf8Len_take_add content w.file_obj.pos k data hdata]⟩
  cases op with
  | read size =>
      simp only [stepOp, ProgressFileWrapper.read, TextFile.read, TextFile.rest, hc]
      by_cases hneg : size < 0
      · simp only [if_pos hneg]
        exact key (content.drop w.file_obj.pos) (content.drop w.file_obj.pos).length
          (List.take_length _).symm
      · simp only [if_neg hneg]
        exact key _ size.toNat rfl
  | readline size =>
      simp only [stepOp, ProgressFileWrapper.readline, TextFile.readline, TextFile.rest, hc]
      by_cases hneg : size < 0
      · simp only [if_pos hneg]
        exact key (takeLine (content.drop w.file_obj.pos)) _ (takeLine_eq_take _)
      · simp only [if_neg hneg]
        refine key _ (min size.toNat (takeLine (content.drop w.file_obj.pos)).length) ?_
        rw [← List.take_take, ← takeLine_eq_take]
  | nextLine =>
      simp only [stepOp, ProgressFileWrapper.next, TextFile.next, TextFile.rest, hc]
      rcases hrest : content.drop w.file_obj.pos with _ | ⟨c, cs⟩
      · exact ⟨hc, hpos, hpb⟩
      · have hdata : takeLine (c :: cs) =
            (content.drop w.file_obj.pos).take (takeLine (c :: cs)).length := by
          rw [hrest]
          exact takeLine_eq_take _
        exact key (takeLine (c :: cs)) _ hdata

theorem runOps_inv (content : List Char) (ops : List ReadOp) (w : ProgressFileWrapper)
    (h : wrapperInv content w) : wrapperInv content (runOps w ops) := by
  induction ops generalizing w with
  | nil => exact h
  | cons op ops ih => exact ih (stepOp w op) (stepOp_inv content w op h)

/-! ## Claim theorems -/

/-- C2 (counterexample): the key sets of the two returned mappings can
differ.  A record whose present `price` is the string `"x"` raises
`TypeError` in `category_sales.get(category, 0.0) + price` *after* the
count update but *before* the sales update; the exception is caught and
the mappings are returned with the category present in `category_counts`
only, so the claimed key-set equality fails at stream end.  (A fractional
JSON price does the same: `ijson` yields it as a `decimal.Decimal`, and
`float + Decimal` also raises `TypeError`; see the C5 counterexample.) -/
theorem keyset_invariant_cex :
    ¬ dictKeys (process_file (some 17) [itemBadPrice] true).1 =
      dictKeys (process_file (some 17) [itemBadPrice] true).2 := by
  decide

/-- C2 (amended): for every input sequence of item records whose present
`price` values Python can add to the float running sum (`int`, `float`
or `bool` — in particular not the `decimal.Decimal` that `ijson` yields
for fractional JSON numbers, and not `None` or a string), the key set of
`category_counts` equals the key set of `category_sales` after every
processed record (every prefix of the stream) and at stream end. -/
theorem keyset_invariant_addable (items : List Item)
    (hp : ∀ r ∈ items, priceOk r = true) (k n : Nat) (pe : Bool) :
    dictKeys (processStream initState (items.take k)).1.counts
      = dictKeys (processStream initState (items.take k)).1.sales
    ∧ dictKeys (process_file (some n) items pe).1
      = dictKeys (process_file (some n) items pe).2 := by
  have htake : ∀ r ∈ items.take k, priceOk r = true :=
    fun r hr => hp r (List.take_subset k items hr)
  exact ⟨keysEq_processStream _ htake initState rfl,
    keysEq_processStream _ hp initState rfl⟩

theorem keyset_invariant_addable_witness :
    dictKeys (processStream initState ([itemA, itemBare].take 1)).1.counts
      = dictKeys (processStream initState ([itemA, itemBare].take 1)).1.sales
    ∧ dictKeys (process_file (some 3) [itemA, itemBare] false).1
      = dictKeys (process_file (some 3) [itemA, itemBare] false).2 :=
  keyset_invariant_addable [itemA, itemBare] (by decide) 1 3 false

/-- C3: a second record carrying the same truthy identifier as an earlier
one is a no-op: the whole run — loop state (both mappings and the
seen-identifier set) and the returned mappings — is identical with and
without it. -/
theorem duplicate_second_noop (pre mid post : List Item) (r₁ r₂ : Item) (i : JVal)
    (h₁ : dictGet r₁ "id" = some i) (h₂ : dictGet r₂ "id" = some i)
    (ht : truthy i = true) (n : Nat) (pe : Bool) :
    processStream initState (pre ++ r₁ :: (mid ++ r₂ :: post))
      = processStream initState (pre ++ r₁ :: (mid ++ post))
    ∧ process_file (some n) (pre ++ r₁ :: (mid ++ r₂ :: post)) pe
      = process_file (some n) (pre ++ r₁ :: (mid ++ post)) pe := by
  have main : processStream initState (pre ++ r₁ :: (mid ++ r₂ :: post))
      = processStream initState (pre ++ r₁ :: (mid ++ post)) := by
    rw [processStream_append, processStream_append]
    by_cases hpre : (processStream initState pre).2 = true
    · rw [if_pos hpre, if_pos hpre]
      rcases hr₁ : processItem (processStream initState pre).1 r₁ with ⟨s₂, b⟩
      have hi₂ : i ∈ s₂.seen := by
        have hmem := id_mem_seen_processItem (processStream initState pre).1 r₁ i h₁ ht
        rw [hr₁] at hmem
        exact hmem
      cases b
      · simp [processStream, hr₁]
      · simp only [processStream, hr₁]
        rw [processStream_append, processStream_append]
        by_cases hmid : (processStream s₂ mid).2 = true
        · rw [if_pos hmid, if_pos hmid]
          have hi₃ : i ∈ (processStream s₂ mid).1.seen :=
            seen_mem_processStream s₂ mid i hi₂
          have hskip : processItem (processStream s₂ mid).1 r₂ =
              ((processStream s₂ mid).1, true) :=
            dup_skip (processStream s₂ mid).1 r₂ i h₂ hi₃
          simp [processStream, hskip]
        · rw [if_neg hmid, if_neg hmid]
    · rw [if_neg hpre, if_neg hpre]
  exact ⟨main, by simp [process_file, main]⟩

theorem duplicate_second_noop_witness :
    processStream initState ([] ++ itemA :: ([itemB] ++ itemDupA :: []))
      = processStream initState ([] ++ itemA :: ([itemB] ++ []))
    ∧ process_file (some 9) ([] ++ itemA :: ([itemB] ++ itemDupA :: [])) false
      = process_file (some 9) ([] ++ itemA :: ([itemB] ++ [])) false :=
  duplicate_second_noop [] [itemB] [] itemA itemDupA (JVal.str "a")
    (by decide) (by decide) (by decide) 9 false

/-- C4: a record whose identifier is falsy (absent, empty string, null,
zero, false) mutates nothing: the loop body leaves the state — both
mappings and the seen-identifier set — unchanged, and removing the record
from the stream leaves the returned mappings unchanged. -/
theorem falsy_id_noop (s : AggState) (r : Item) (pre post : List Item) (n : Nat) (pe : Bool)
    (h : truthy ((dictGet r "id").getD JVal.null) = false) :
    processItem s r = (s, true)
    ∧ process_file (some n) (pre ++ r :: post) pe = process_file (some n) (pre ++ post) pe := by
  have hitem : ∀ s' : AggState, processItem s' r = (s', true) := by
    intro s'
    simp [processItem, h]
  have hstream : processStream initState (pre ++ r :: post)
      = processStream initState (pre ++ post) := by
    rw [processStream_append, processStream_append]
    by_cases hpre : (processStream initState pre).2 = true
    · rw [if_pos hpre, if_pos hpre]
      simp [processStream, hitem]
    · rw [if_neg hpre, if_neg hpre]
  exact ⟨hitem s, by simp [process_file, hstream]⟩

theorem falsy_id_noop_witness :
    processItem initState itemNoId = (initState, true)
    ∧ process_file (some 4) ([itemA] ++ itemNoId :: [itemB]) false
      = process_file (some 4) ([itemA] ++ [itemB]) false :=
  falsy_id_noop initState itemNoId [itemA] [itemB] 4 false (by decide)

/-- C5 (counterexample): `{"id": "e", "price": 5.5}` is an accepted record
with no `category` field, yet it is *not* folded into the "Unknown"
bucket of both mappings: `ijson` yields the price as
`decimal.Decimal('5.5')`, so `category_sales.get(category, 0.0) + price`
raises `TypeError` after the count update, and the returned sales
mapping has no sentinel key at all. -/
theorem defaulting_unknown_cex :
    dictGet (process_file (some 1) [itemDecNoCat] false).1 unknownCategory = some 1
    ∧ dictGet (process_file (some 1) [itemDecNoCat] false).2 unknownCategory = none := by
  decide

/-- C5 (amended): for an accepted record (truthy, unseen identifier): if
`category` is absent and the price is absent or a value Python can add to
the float running sum (`int`, `float` or `bool` — not a `Decimal`), the
record is folded into the sentinel bucket of *both* mappings (the code's
`'Неизвестно'`, the "Unknown" sentinel of the specification); if `price`
is absent — unconditionally — `0.0` is added to the category's running
sum while the category's count is still incremented by 1. -/
theorem defaulting_unknown_zero_price (s : AggState) (r : Item) (i : JVal) (p : Rat)
    (hid : dictGet r "id" = some i) (ht : truthy i = true) (hns : i ∉ s.seen) :
    (dictGet r "category" = none →
      toNum ((dictGet r "price").getD (JVal.float 0)) = some p →
      processItem s r =
        ({ counts := dictSet s.counts unknownCategory
             ((dictGet s.counts unknownCategory).getD 0 + 1),
           sales := dictSet s.sales unknownCategory
             ((dictGet s.sales unknownCategory).getD 0 + p),
           seen := s.seen ++ [i] }, true))
    ∧ (dictGet r "price" = none →
      processItem s r =
        ({ counts := dictSet s.counts ((dictGet r "category").getD unknownCategory)
             ((dictGet s.counts ((dictGet r "category").getD unknownCategory)).getD 0 + 1),
           sales := dictSet s.sales ((dictGet r "category").getD unknownCategory)
             ((dictGet s.sales ((dictGet r "category").getD unknownCategory)).getD 0 + 0),
           seen := s.seen ++ [i] }, true)) := by
  constructor
  · intro hcat hp
    simp [processItem, hid, ht, hns, hcat, hp]
  · intro hprice
    simp [processItem, hid, ht, hns, hprice, toNum]

theorem defaulting_unknown_zero_price_witness :
    (dictGet itemBare "category" = none →
      toNum ((dictGet itemBare "price").getD (JVal.float 0)) = some 0 →
      processItem initState itemBare =
        ({ counts := dictSet initState.counts unknownCategory
             ((dictGet initState.counts unknownCategory).getD 0 + 1),
           sales := dictSet initState.sales unknownCategory
             ((dictGet initState.sales unknownCategory).getD 0 + 0),
           seen := initState.seen ++ [JVal.str "d"] }, true))
    ∧ (dictGet itemBare "price" = none →
      processItem initState itemBare =
        ({ counts := dictSet initState.counts
             ((dictGet itemBare "category").getD unknownCategory)
             ((dictGet initState.counts
               ((dictGet itemBare "category").getD unknownCategory)).getD 0 + 1),
           sales := dictSet initState.sales
             ((dictGet itemBare "category").getD unknownCategory)
             ((dictGet initState.sales
               ((dictGet itemBare "category").getD unknownCategory)).getD 0 + 0),
           seen := initState.seen ++ [JVal.str "d"] }, true)) :=
  defaulting_unknown_zero_price initState itemBare (JVal.str "d") 0
    (by decide) (by decide) (by decide)

/-- C6: when `os.path.getsize` fails, `process_file` returns two empty
mappings before any record is consumed, whatever the parser would have
yielded; the `except OSError` clause catches the failure, so no exception
reaches the caller (the embedding is total). -/
theorem sizing_failure_empty (items : List Item) (pe : Bool) :
    process_file none items pe = ([], []) := rfl

/-- C7: `ProgressFileWrapper.read(size)` returns exactly the data the
underlying source returns for that request, leaves the source exactly as
the raw read would, and adds to the progress counter the UTF-8 *byte*
length of the returned data (`len(data.encode('utf-8'))`, equal to the
byte size of the returned string, not to its character count). -/
theorem read_passthrough_byte_metered (w : ProgressFileWrapper) (size : Int) :
    (w.read size).1 = (w.file_obj.read size).1
    ∧ (w.read size).2.file_obj = (w.file_obj.read size).2
    ∧ (w.read size).2.progress_bar =
        w.progress_bar + String.utf8ByteSize ⟨(w.file_obj.read size).1⟩ := by
  refine ⟨rfl, rfl, ?_⟩
  show w.progress_bar + utf8Len (w.file_obj.read size).1 = _
  rw [utf8Len_eq_utf8ByteSize]

/-- C8: whenever a sequence of `read` / `readline` / iteration steps
consumes the decoded stream of some file to the end, the progress counter
— the sum of all byte-count deltas reported to the progress sink,
starting from 0 — equals the UTF-8 byte size of that decoded stream. -/
theorem progress_total_content (content : List Char) (ops : List ReadOp)
    (hdone : (runOps (initWrapper content) ops).file_obj.pos = content.length) :
    (runOps (initWrapper content) ops).progress_bar = utf8Len content := by
  have hinv := runOps_inv content ops (initWrapper content)
    ⟨rfl, Nat.zero_le _, rfl⟩
  obtain ⟨_, _, hpb⟩ := hinv
  rw [hpb, hdone, List.take_length]

/-- C8 (counterexample): for the 4-byte on-disk file `"a\r\nb"`, a single
`read()` consumes the decoded stream to the end with no error, yet the
reported deltas sum to 3, not to the file size 4 that `os.path.getsize`
returned: universal-newlines decoding turned `'\r\n'` into `'\n'`, and
the wrapper measures the decoded text. -/
theorem progress_total_cex :
    (runOps (initWrapper (nlTranslate diskCRLF)) [ReadOp.read (-1)]).file_obj.pos
        = (nlTranslate diskCRLF).length
    ∧ ¬ (runOps (initWrapper (nlTranslate diskCRLF)) [ReadOp.read (-1)]).progress_bar
        = utf8Len diskCRLF := by
  decide

/-- C8 (amended): for every on-disk text containing no `'\r\n'` pair,
whenever a sequence of `read` / `readline` / iteration steps consumes the
decoded stream to the end, the progress counter — the sum of all
byte-count deltas reported to the progress sink, starting from 0 — equals
the file's on-disk byte size, the total `os.path.getsize` obtained up
front, regardless of how the reads are split. -/
theorem progress_total_eq_size (disk : List Char) (ops : List ReadOp)
    (hcrlf : hasCRLF disk = false)
    (hdone : (runOps (initWrapper (nlTranslate disk)) ops).file_obj.pos
        = (nlTranslate disk).length) :
    (runOps (initWrapper (nlTranslate disk)) ops).progress_bar = utf8Len disk := by
  rw [progress_total_content (nlTranslate disk) ops hdone,
    utf8Len_nlTranslate disk hcrlf]

theorem progress_total_eq_size_witness :
    (runOps (initWrapper (nlTranslate ['é', '\n', 'c']))
        [ReadOp.read 2, ReadOp.nextLine]).progress_bar
      = utf8Len ['é', '\n', 'c'] :=
  progress_total_eq_size ['é', '\n', 'c'] [ReadOp.read 2, ReadOp.nextLine]
    (by decide) (by decide)

/-- C9 (counterexample): `{"id": "f", "category": null, "price": 5.5}` has
a truthy unseen identifier and an explicit null category, but
`process_file` does not aggregate it under the null key in both mappings:
the `Decimal('5.5')` price raises `TypeError` after the count update, so
only `category_counts` acquires the null key and `category_sales` stays
empty. -/
theorem null_category_cex :
    (process_file (some 1) [itemNullCatDec] false).1 = [(JVal.null, 1)]
    ∧ (process_file (some 1) [itemNullCatDec] false).2 = [] := by
  decide

/-- C9 (amended): a record whose `category` key is present but bound to
JSON `null`, and whose price is absent or a value Python can add to the
float running sum (`int`, `float` or `bool` — not a `Decimal`), is
aggregated under the `null` key itself — `dict.get(key, default)` only
applies the default when the key is absent — and the sentinel
("Unknown") bucket of both mappings is left untouched. -/
theorem null_category_key (s : AggState) (r : Item) (i : JVal) (p : Rat)
    (hid : dictGet r "id" = some i) (ht : truthy i = true) (hns : i ∉ s.seen)
    (hcat : dictGet r "category" = some JVal.null)
    (hp : toNum ((dictGet r "price").getD (JVal.float 0)) = some p) :
    processItem s r =
      ({ counts := dictSet s.counts JVal.null ((dictGet s.counts JVal.null).getD 0 + 1),
         sales := dictSet s.sales JVal.null ((dictGet s.sales JVal.null).getD 0 + p),
         seen := s.seen ++ [i] }, true)
    ∧ dictGet (processItem s r).1.counts unknownCategory = dictGet s.counts unknownCategory
    ∧ dictGet (processItem s r).1.sales unknownCategory = dictGet s.sales unknownCategory := by
  have main : processItem s r =
      ({ counts := dictSet s.counts JVal.null ((dictGet s.counts JVal.null).getD 0 + 1),
         sales := dictSet s.sales JVal.null ((dictGet s.sales JVal.null).getD 0 + p),
         seen := s.seen ++ [i] }, true) := by
    simp [processItem, hid, ht, hns, hcat, hp, unknownCategory]
  refine ⟨main, ?_, ?_⟩
  · rw [main]
    exact dictGet_dictSet_ne _ _ _ _ (by simp [unknownCategory])
  · rw [main]
    exact dictGet_dictSet_ne _ _ _ _ (by simp [unknownCategory])

theorem null_category_key_witness :
    processItem initState itemNullCat =
      ({ counts := dictSet initState.counts JVal.null
           ((dictGet initState.counts JVal.null).getD 0 + 1),
         sales := dictSet initState.sales JVal.null
           ((dictGet initState.sales JVal.null).getD 0 + 3),
         seen := initState.seen ++ [JVal.str "c"] }, true)
    ∧ dictGet (processItem initState itemNullCat).1.counts unknownCategory
        = dictGet initState.counts unknownCategory
    ∧ dictGet (processItem initState itemNullCat).1.sales unknownCategory
        = dictGet initState.sales unknownCategory :=
  null_category_key initState itemNullCat (JVal.str "c") 3
    (by decide) (by decide) (by decide) (by decide) (by decide)

/-- C10: `process_file` is deterministic in its inputs: two runs agreeing
on the sizing outcome, on the record sequence the parser yields, and on
the error point produce equal mapping pairs — and the result does not even
depend on the reported size value or on whether the parser failed at the
end. -/
theorem processFile_deterministic (items : List Item) (n n' : Nat) (pe pe' : Bool) :
    process_file (some n) items pe = process_file (some n') items pe'
    ∧ process_file none items pe = process_file none items pe' :=
  ⟨rfl, rfl⟩
